import Mathlib

/-!
Shallow embedding of src/src/model/model.cpp (MazeShooter): a model-asset
loader and immediate-mode renderer.  Loading (`loadModel`, `processNode`,
`processMesh`, `readTexture`) is modelled as explicit state passing over a
`ModelState`; drawing (`draw`, `drawMesh`) is modelled as a function emitting
the list of GL commands it issues, in order.  External collaborators (the
Assimp importer, the lodepng decoder, the shader program's attribute/uniform
lookups) are parameters of an `Env`.  The 4x4 float matrix payload of the
model-transform uniform is not modelled (floating-point data no claim depends
on); the upload is recorded as a command carrying the uniform location.
-/

/-- One face of an imported mesh: `aiFace` (its `mIndices` array of
`mNumIndices` entries). -/
structure AiFace where
  indices : List Nat
deriving DecidableEq

/-- One entry of the scene's flat mesh array: `aiMesh`, keeping the fields
the code reads (`mFaces`/`mNumFaces`, `GetNumUVChannels()`, `mMaterialIndex`).
The raw vertex, normal and UV buffers are referenced by the draw path only
through which buffer is bound, so they carry no data here. -/
structure AiMesh where
  faces : List AiFace
  numUVChannels : Nat
  materialIndex : Nat
deriving DecidableEq

/-- A material: `aiMaterial`, read only through
`GetTexture(aiTextureType_DIFFUSE, 0, &path)`, modelled as the optional
diffuse texture path of channel 0. -/
structure AiMaterial where
  diffuse : Option String
deriving DecidableEq

/-- A node of the imported scene tree: `aiNode`, with its `mMeshes` indices
into the scene's flat mesh array and its `mChildren`. -/
inductive AiNode where
  | node (meshRefs : List Nat) (children : List AiNode)

/-- The imported scene: `aiScene` (`mMeshes`/`mNumMeshes`, `mMaterials`,
`mRootNode`).  A mesh-array slot is `Option AiMesh` because the code guards
against a null `aiMesh*`. -/
structure AiScene where
  meshes : List (Option AiMesh)
  materials : List AiMaterial
  rootNode : AiNode

/-- `scene->mMeshes[idx]`: the mesh pointer at a flat-array index (out of
range reads yield no mesh). -/
def getMesh (scene : AiScene) (idx : Nat) : Option AiMesh :=
  (scene.meshes.get? idx).join

/-- `scene->mMaterials[mesh->mMaterialIndex]` followed by
`GetTexture(aiTextureType_DIFFUSE, 0, &path) == AI_SUCCESS`: the diffuse
texture path of the mesh's material, when the lookup succeeds. -/
def materialDiffuse (scene : AiScene) (idx : Nat) : Option String :=
  match scene.materials.get? idx with
  | none => none
  | some mat => mat.diffuse

/-- The external collaborators: the shader program's attribute lookup `a` and
uniform lookup `u` (GLint locations), and `lodepng::decode`, which either
fails or yields an image (width, height). -/
structure Env where
  a : String → Int
  u : String → Int
  decode : String → Option (Nat × Nat)

/-- `readTexture(filename)`: decode the image; on decode error log and return
the sentinel handle 0; otherwise `glGenTextures` a fresh handle and upload.
The GL handle allocator is threaded as a counter (`glNext`), so a freshly
generated handle is `glNext + 1` (nonzero, never previously returned):
result is (handle, new counter). -/
def readTexture (env : Env) (filename : String) (glNext : Nat) : Nat × Nat :=
  match env.decode filename with
  | none => (0, glNext)
  | some _ => (glNext + 1, glNext + 1)

/-- The `Mesh` struct the loader stores per processed `aiMesh`: the raw-mesh
reference, the flattened `indices`, the `texCoordsAttributes` locations and
the resolved `meshTextures` handles. -/
structure Mesh where
  meshRef : AiMesh
  indices : List Nat
  texCoordsAttributes : List Int
  meshTextures : List Nat
deriving DecidableEq

/-- The mutable state of a `Model` during loading: its `meshes` vector, its
`loadedTextures` path-to-handle cache (an association list whose keys stay
unique because insertion happens only after a failed find), the GL handle
counter, and the instrumentation log `texCalls` of the paths `readTexture`
was invoked on, in call order. -/
structure ModelState where
  meshes : List Mesh
  loadedTextures : List (String × Nat)
  glNextTex : Nat
  texCalls : List String
deriving DecidableEq

/-- A freshly constructed `Model`: no meshes, empty texture cache. -/
def initialState : ModelState :=
  { meshes := [], loadedTextures := [], glNextTex := 0, texCalls := [] }

/-- `loadedTextures.find(path)` of `std::map`: look the path up in the
cache. -/
def findTexture : List (String × Nat) → String → Option Nat
  | [], _ => none
  | (k, v) :: rest, p => if k = p then some v else findTexture rest p

/-- The index-flattening loop of `processMesh`: push every face's indices in
face order (`push_back` on a growing vector). -/
def flattenIndices (m : AiMesh) : List Nat :=
  m.faces.foldl (fun acc f => acc ++ f.indices) []

/-- The UV-channel loop of `processMesh`: for `i` in `0 ..
GetNumUVChannels()`, look up attribute `"texCoord" + to_string(i)` in the
shader program and record it. -/
def texCoordAttrs (env : Env) (m : AiMesh) : List Int :=
  (List.range m.numUVChannels).map (fun i => env.a ("texCoord" ++ toString i))

/-- `Model::processMesh(mesh, scene)`: a null mesh is logged and skipped;
otherwise flatten the indices, record the texcoord attribute locations,
resolve the material's diffuse texture through the cache (reuse on exact
path match, else call `readTexture` and cache the result), and push the
built `Mesh`. -/
def processMesh (env : Env) (scene : AiScene) (mesho : Option AiMesh)
    (st : ModelState) : ModelState :=
  match mesho with
  | none => st
  | some mesh =>
    let indices := flattenIndices mesh
    let texCoordNames := texCoordAttrs env mesh
    match materialDiffuse scene mesh.materialIndex with
    | none =>
      { st with meshes := st.meshes ++ [⟨mesh, indices, texCoordNames, []⟩] }
    | some texturePath =>
      match findTexture st.loadedTextures texturePath with
      | some h =>
        { st with meshes := st.meshes ++ [⟨mesh, indices, texCoordNames, [h]⟩] }
      | none =>
        let r := readTexture env texturePath st.glNextTex
        { meshes := st.meshes ++ [⟨mesh, indices, texCoordNames, [r.1]⟩],
          loadedTextures := st.loadedTextures ++ [(texturePath, r.1)],
          glNextTex := r.2,
          texCalls := st.texCalls ++ [texturePath] }

/-- The first loop of `Model::processNode`: for each mesh index the node
references, resolve it in the scene's flat array and process it. -/
def processMeshRefs (env : Env) (scene : AiScene) :
    List Nat → ModelState → ModelState
  | [], st => st
  | idx :: rest, st =>
    processMeshRefs env scene rest (processMesh env scene (getMesh scene idx) st)

mutual

/-- `Model::processNode(node, scene)`: process the node's own referenced
meshes, then recurse into its children in order. -/
def processNode (env : Env) (scene : AiScene) :
    AiNode → ModelState → ModelState
  | AiNode.node meshRefs children, st =>
    processNodes env scene children (processMeshRefs env scene meshRefs st)

/-- The child loop of `Model::processNode`. -/
def processNodes (env : Env) (scene : AiScene) :
    List AiNode → ModelState → ModelState
  | [], st => st
  | n :: ns, st => processNodes env scene ns (processNode env scene n st)

end

/-- `Model::loadModel(pFile, sp)`: the importer's result is either null
(import failure: log and return) or a scene; a scene with `mNumMeshes == 0`
is logged and returned from; otherwise the tree is walked from the root. -/
def loadModel (env : Env) (sceneo : Option AiScene) (st : ModelState) :
    ModelState :=
  match sceneo with
  | none => st
  | some scene =>
    if scene.meshes.length = 0 then st
    else processNode env scene scene.rootNode st

/-- A texture wrap mode: `GL_CLAMP_TO_EDGE` or `GL_REPEAT`. -/
inductive Wrap where
  | clampToEdge
  | repeatWrap
deriving DecidableEq

/-- Which client-side raw buffer of the current mesh a `glVertexAttribPointer`
call binds: `mVertices`, `mTextureCoords[channel]` or `mNormals`. -/
inductive BufferSrc where
  | positions
  | uv (channel : Nat)
  | normals
deriving DecidableEq

/-- One GL command the draw path issues, carrying the arguments the code
passes. -/
inductive GLCmd where
  | texParamWrapS (w : Wrap)
  | texParamWrapT (w : Wrap)
  | uniformMatrix4fv (loc : Int)
  | enableVertexAttribArray (loc : Int)
  | vertexAttribPointer (loc : Int) (size : Nat) (src : BufferSrc)
  | disableVertexAttribArray (loc : Int)
  | activeTexture (unit : Nat)
  | bindTexture (tex : Nat)
  | uniform1i (loc : Int) (v : Nat)
  | drawElements (count : Nat)
deriving DecidableEq

/-- The texcoord loop of `drawMesh`: for each recorded attribute location,
enable it, bind it to UV channel 0's raw buffer (2 floats per vertex), then
disable it again. -/
def texCoordCmds (locs : List Int) : List GLCmd :=
  locs.flatMap (fun l =>
    [GLCmd.enableVertexAttribArray l,
     GLCmd.vertexAttribPointer l 2 (BufferSrc.uv 0),
     GLCmd.disableVertexAttribArray l])

/-- The texture loop of `drawMesh`: for texture `i`, activate unit
`GL_TEXTURE0 + i`, bind the handle, set sampler uniform
`"textureMap" + to_string(i)` to `i`. -/
def textureBindCmds (env : Env) (texs : List Nat) : List GLCmd :=
  texs.enum.flatMap (fun p =>
    [GLCmd.activeTexture p.1,
     GLCmd.bindTexture p.2,
     GLCmd.uniform1i (env.u ("textureMap" ++ toString p.1)) p.1])

/-- `Model::drawMesh(mesh, M)`: the GL commands it issues, in program order.
The wrap mode is set to clamp-to-edge before the null check; a null mesh is
then logged and skipped.  Otherwise the wrap mode is overwritten to repeat,
the transform uniform uploaded, the vertex attribute bound, the texcoord
attributes enabled-bound-disabled, the textures bound, the normal attribute
bound, one indexed draw issued over the flattened indices, and the vertex
and normal attributes disabled. -/
def drawMesh (env : Env) (mesho : Option Mesh) : List GLCmd :=
  [GLCmd.texParamWrapS Wrap.clampToEdge,
   GLCmd.texParamWrapT Wrap.clampToEdge] ++
  match mesho with
  | none => []
  | some mesh =>
    [GLCmd.texParamWrapS Wrap.repeatWrap,
     GLCmd.texParamWrapT Wrap.repeatWrap,
     GLCmd.uniformMatrix4fv (env.u "M"),
     GLCmd.enableVertexAttribArray (env.a "vertex"),
     GLCmd.vertexAttribPointer (env.a "vertex") 3 BufferSrc.positions] ++
    texCoordCmds mesh.texCoordsAttributes ++
    textureBindCmds env mesh.meshTextures ++
    [GLCmd.enableVertexAttribArray (env.a "normal"),
     GLCmd.vertexAttribPointer (env.a "normal") 3 BufferSrc.normals,
     GLCmd.drawElements mesh.indices.length,
     GLCmd.disableVertexAttribArray (env.a "vertex"),
     GLCmd.disableVertexAttribArray (env.a "normal")]

/-- `Model::draw(M)`: `drawMesh` on the address of every stored mesh, in
storage order (the pointer passed is never null). -/
def draw (env : Env) (st : ModelState) : List GLCmd :=
  st.meshes.flatMap (fun m => drawMesh env (some m))

/-- Whether a command is an indexed draw call. -/
def isDrawCall : GLCmd → Bool
  | GLCmd.drawElements _ => true
  | _ => false

/-- How many indexed draw calls a command list issues. -/
def countDrawCalls (cmds : List GLCmd) : Nat :=
  (cmds.filter isDrawCall).length

/-- The global GL texture-wrap state (S and T) a command list mutates. -/
structure WrapState where
  wrapS : Wrap
  wrapT : Wrap
deriving DecidableEq

/-- One command's effect on the wrap state. -/
def stepWrap (w : WrapState) : GLCmd → WrapState
  | GLCmd.texParamWrapS v => { w with wrapS := v }
  | GLCmd.texParamWrapT v => { w with wrapT := v }
  | _ => w

/-- The wrap state after running a command list from `w`. -/
def wrapAfter (cmds : List GLCmd) (w : WrapState) : WrapState :=
  cmds.foldl stepWrap w

/-- One command's effect on the set of enabled vertex-attribute locations. -/
def stepEnabled (s : Finset Int) : GLCmd → Finset Int
  | GLCmd.enableVertexAttribArray l => insert l s
  | GLCmd.disableVertexAttribArray l => s.erase l
  | _ => s

/-- The enabled-attribute set after running a command list from `s`. -/
def enabledAfter (cmds : List GLCmd) (s : Finset Int) : Finset Int :=
  cmds.foldl stepEnabled s

/-- A found cache entry stays found (with the same handle) after entries are
appended: `findTexture` returns the first match. -/
theorem findTexture_append_of_some (l e : List (String × Nat)) (p : String)
    (h : Nat) (hf : findTexture l p = some h) :
    findTexture (l ++ e) p = some h := by
  induction l with
  | nil => simp [findTexture] at hf
  | cons kv rest ih =>
    by_cases hk : kv.1 = p
    · simpa [findTexture, hk] using hf
    · rw [List.cons_append, findTexture] at *
      simpa [hk] using ih (by simpa [hk] using hf)

/-- Appending the missing key's entry makes it found. -/
theorem findTexture_append_single_self (l : List (String × Nat)) (p : String)
    (v : Nat) (hf : findTexture l p = none) :
    findTexture (l ++ [(p, v)]) p = some v := by
  induction l with
  | nil => simp [findTexture]
  | cons kv rest ih =>
    by_cases hk : kv.1 = p
    · simp [findTexture, hk] at hf
    · rw [List.cons_append, findTexture]
      simpa [hk] using ih (by simpa [findTexture, hk] using hf)

/-- Appending an entry for a different key does not change a lookup. -/
theorem findTexture_append_single_ne (l : List (String × Nat)) (p q : String)
    (v : Nat) (hpq : q ≠ p) :
    findTexture (l ++ [(q, v)]) p = findTexture l p := by
  induction l with
  | nil => simp [findTexture, hpq]
  | cons kv rest ih =>
    by_cases hk : kv.1 = p
    · simp [findTexture, hk]
    · rw [List.cons_append, findTexture, findTexture]
      simpa [hk] using ih

/-- A lookup that misses in an extended cache missed in the original. -/
theorem findTexture_none_of_append (l e : List (String × Nat)) (p : String)
    (hf : findTexture (l ++ e) p = none) : findTexture l p = none := by
  cases h : findTexture l p with
  | none => rfl
  | some v => rw [findTexture_append_of_some l e p v h] at hf; exact absurd hf (by simp)

/-- The index-flattening loop equals face-order concatenation of the faces'
index lists. -/
theorem flattenIndices_eq_flatMap (m : AiMesh) :
    flattenIndices m = m.faces.flatMap AiFace.indices := by
  unfold flattenIndices
  suffices h : ∀ (fs : List AiFace) (acc : List Nat),
      fs.foldl (fun acc f => acc ++ f.indices) acc = acc ++ fs.flatMap AiFace.indices by
    simpa using h m.faces []
  intro fs
  induction fs with
  | nil => simp
  | cons f rest ih => intro acc; simp [ih, List.flatMap_cons]

/-- Processing a null mesh leaves the state unchanged. -/
theorem processMesh_none (env : Env) (scene : AiScene) (st : ModelState) :
    processMesh env scene none st = st := rfl

/-- Processing a real mesh appends exactly one `Mesh`, built from the
flattened indices and the texcoord attribute lookups. -/
theorem processMesh_some_meshes (env : Env) (scene : AiScene) (m : AiMesh)
    (st : ModelState) :
    ∃ tex, (processMesh env scene (some m) st).meshes
      = st.meshes ++ [⟨m, flattenIndices m, texCoordAttrs env m, tex⟩] := by
  cases hd : materialDiffuse scene m.materialIndex with
  | none => exact ⟨[], by simp [processMesh, hd]⟩
  | some tp =>
    cases hf : findTexture st.loadedTextures tp with
    | some h => exact ⟨[h], by simp [processMesh, hd, hf]⟩
    | none =>
      exact ⟨[(readTexture env tp st.glNextTex).1], by simp [processMesh, hd, hf]⟩

/-- Processing any mesh pointer only appends to the mesh list, the cache and
the call log, and every newly logged call was a cache miss. -/
theorem processMesh_mono (env : Env) (scene : AiScene) (mo : Option AiMesh)
    (st : ModelState) :
    ∃ ms ext cs,
      (processMesh env scene mo st).meshes = st.meshes ++ ms ∧
      (processMesh env scene mo st).loadedTextures = st.loadedTextures ++ ext ∧
      (processMesh env scene mo st).texCalls = st.texCalls ++ cs ∧
      ∀ p ∈ cs, findTexture st.loadedTextures p = none := by
  cases mo with
  | none =>
    exact ⟨[], [], [], by simp [processMesh], by simp [processMesh],
      by simp [processMesh], by simp⟩
  | some m =>
    cases hd : materialDiffuse scene m.materialIndex with
    | none =>
      exact ⟨[⟨m, flattenIndices m, texCoordAttrs env m, []⟩], [], [],
        by simp [processMesh, hd], by simp [processMesh, hd],
        by simp [processMesh, hd], by simp⟩
    | some tp =>
      cases hf : findTexture st.loadedTextures tp with
      | some h =>
        exact ⟨[⟨m, flattenIndices m, texCoordAttrs env m, [h]⟩], [], [],
          by simp [processMesh, hd, hf],
          by simp [processMesh, hd, hf], by simp [processMesh, hd, hf], by simp⟩
      | none =>
        refine ⟨[⟨m, flattenIndices m, texCoordAttrs env m,
            [(readTexture env tp st.glNextTex).1]⟩],
          [(tp, (readTexture env tp st.glNextTex).1)], [tp],
          by simp [processMesh, hd, hf], by simp [processMesh, hd, hf],
          by simp [processMesh, hd, hf], ?_⟩
        intro p hp
        rw [List.mem_singleton] at hp
        exact hp ▸ hf

mutual

/-- Validity of a subtree: every mesh index a node references resolves to a
non-null mesh in the scene's flat array. -/
def nodeValidB (scene : AiScene) : AiNode → Bool
  | AiNode.node meshRefs children =>
    meshRefs.all (fun i => (getMesh scene i).isSome) && nodesValidB scene children

/-- Validity of a list of subtrees. -/
def nodesValidB (scene : AiScene) : List AiNode → Bool
  | [] => true
  | n :: ns => nodeValidB scene n && nodesValidB scene ns

end

mutual

/-- The sum of `mNumMeshes` over all nodes of a subtree. -/
def nodeMeshSum : AiNode → Nat
  | AiNode.node meshRefs children => meshRefs.length + nodesMeshSum children

/-- The sum of `mNumMeshes` over all nodes of a list of subtrees. -/
def nodesMeshSum : List AiNode → Nat
  | [] => 0
  | n :: ns => nodeMeshSum n + nodesMeshSum ns

end

mutual

/-- The mesh indices of a subtree in pre-order: a node's own references
first, then its children's, siblings in the scene's given order. -/
def preorderRefs : AiNode → List Nat
  | AiNode.node meshRefs children => meshRefs ++ preorderRefsList children

/-- Pre-order mesh indices of a list of subtrees, in order. -/
def preorderRefsList : List AiNode → List Nat
  | [] => []
  | n :: ns => preorderRefs n ++ preorderRefsList ns

end

mutual

/-- The pre-order listing has exactly `nodeMeshSum` entries. -/
theorem preorderRefs_length (n : AiNode) :
    (preorderRefs n).length = nodeMeshSum n := by
  cases n with
  | node meshRefs children =>
    rw [preorderRefs, nodeMeshSum, List.length_append,
      preorderRefsList_length children]

/-- The pre-order listing of a forest has exactly `nodesMeshSum` entries. -/
theorem preorderRefsList_length (ns : List AiNode) :
    (preorderRefsList ns).length = nodesMeshSum ns := by
  cases ns with
  | nil => rfl
  | cons n rest =>
    rw [preorderRefsList, nodesMeshSum, List.length_append,
      preorderRefs_length n, preorderRefsList_length rest]

end

/-- The mesh-reference loop processes the referenced meshes in order: the
stored mesh records gain exactly the resolved references, in reference
order. -/
theorem processMeshRefs_seq (env : Env) (scene : AiScene) (refs : List Nat)
    (st : ModelState) (h : ∀ i ∈ refs, (getMesh scene i).isSome) :
    (processMeshRefs env scene refs st).meshes.map (fun md => some md.meshRef)
      = st.meshes.map (fun md => some md.meshRef) ++ refs.map (getMesh scene) := by
  induction refs generalizing st with
  | nil => simp [processMeshRefs]
  | cons i rest ih =>
    rw [processMeshRefs]
    obtain ⟨m, hm⟩ := Option.isSome_iff_exists.mp (h i (by simp))
    obtain ⟨tex, htex⟩ := processMesh_some_meshes env scene m st
    rw [ih _ (fun j hj => h j (by simp [hj])), hm, htex]
    simp [hm]

mutual

/-- `processNode` appends the pre-order resolution of the subtree's mesh
references to the stored mesh records, in pre-order. -/
theorem processNode_seq (env : Env) (scene : AiScene) (n : AiNode)
    (st : ModelState) (h : nodeValidB scene n = true) :
    (processNode env scene n st).meshes.map (fun md => some md.meshRef)
      = st.meshes.map (fun md => some md.meshRef)
        ++ (preorderRefs n).map (getMesh scene) := by
  cases n with
  | node meshRefs children =>
    rw [nodeValidB, Bool.and_eq_true] at h
    rw [processNode, preorderRefs,
      processNodes_seq env scene children _ h.2,
      processMeshRefs_seq env scene meshRefs st (by simpa [List.all_eq_true] using h.1)]
    simp

/-- `processNodes` appends the pre-order resolutions of the subtrees, in
sibling order. -/
theorem processNodes_seq (env : Env) (scene : AiScene) (ns : List AiNode)
    (st : ModelState) (h : nodesValidB scene ns = true) :
    (processNodes env scene ns st).meshes.map (fun md => some md.meshRef)
      = st.meshes.map (fun md => some md.meshRef)
        ++ (preorderRefsList ns).map (getMesh scene) := by
  cases ns with
  | nil => simp [processNodes, preorderRefsList]
  | cons n rest =>
    rw [nodesValidB, Bool.and_eq_true] at h
    rw [processNodes, preorderRefsList,
      processNodes_seq env scene rest _ h.2,
      processNode_seq env scene n st h.1]
    simp

end

/-- On a valid subtree, `processNode` grows the mesh list by exactly the
subtree's `mNumMeshes` sum. -/
theorem processNode_count (env : Env) (scene : AiScene) (n : AiNode)
    (st : ModelState) (h : nodeValidB scene n = true) :
    (processNode env scene n st).meshes.length
      = st.meshes.length + nodeMeshSum n := by
  have hc := congrArg List.length (processNode_seq env scene n st h)
  simpa [preorderRefs_length] using hc

/-- On a valid forest, `processNodes` grows the mesh list by exactly the
forest's `mNumMeshes` sum. -/
theorem processNodes_count (env : Env) (scene : AiScene) (ns : List AiNode)
    (st : ModelState) (h : nodesValidB scene ns = true) :
    (processNodes env scene ns st).meshes.length
      = st.meshes.length + nodesMeshSum ns := by
  have hc := congrArg List.length (processNodes_seq env scene ns st h)
  simpa [preorderRefsList_length] using hc

/-- The loader's texture-dedup invariant: the call log is duplicate-free and
logs exactly the cached paths, and every stored mesh's texture handles agree
with the cache entry of its material's diffuse path (or are empty when the
material has none). -/
def loadInvariant (scene : AiScene) (st : ModelState) : Prop :=
  st.texCalls.Nodup ∧
  (∀ p : String, (findTexture st.loadedTextures p).isSome ↔ p ∈ st.texCalls) ∧
  ∀ md ∈ st.meshes,
    (materialDiffuse scene md.meshRef.materialIndex = none →
      md.meshTextures = []) ∧
    ∀ p, materialDiffuse scene md.meshRef.materialIndex = some p →
      ∃ h, findTexture st.loadedTextures p = some h ∧ md.meshTextures = [h]

/-- A fresh model satisfies the dedup invariant. -/
theorem loadInvariant_initial (scene : AiScene) :
    loadInvariant scene initialState := by
  refine ⟨List.nodup_nil, fun p => by simp [initialState, findTexture], ?_⟩
  intro md hmd
  simp [initialState] at hmd

/-- `processMesh` preserves the dedup invariant. -/
theorem processMesh_invariant (env : Env) (scene : AiScene)
    (mo : Option AiMesh) (st : ModelState) (hinv : loadInvariant scene st) :
    loadInvariant scene (processMesh env scene mo st) := by
  obtain ⟨hnd, hiff, hmesh⟩ := hinv
  cases mo with
  | none => exact ⟨hnd, hiff, hmesh⟩
  | some m =>
    cases hd : materialDiffuse scene m.materialIndex with
    | none =>
      refine ⟨?_, ?_, ?_⟩
      · simpa [processMesh, hd] using hnd
      · simpa [processMesh, hd] using hiff
      · intro md hmd
        simp only [processMesh, hd, List.mem_append, List.mem_singleton] at hmd
        rcases hmd with hold | hnew
        · simpa [processMesh, hd] using hmesh md hold
        · subst hnew
          constructor
          · intro; simp [processMesh, hd]
          · intro p hp; rw [hd] at hp; exact absurd hp (by simp)
    | some tp =>
      cases hf : findTexture st.loadedTextures tp with
      | some h =>
        refine ⟨?_, ?_, ?_⟩
        · simpa [processMesh, hd, hf] using hnd
        · simpa [processMesh, hd, hf] using hiff
        · intro md hmd
          simp only [processMesh, hd, hf, List.mem_append, List.mem_singleton] at hmd
          rcases hmd with hold | hnew
          · simpa [processMesh, hd, hf] using hmesh md hold
          · subst hnew
            constructor
            · intro hc; simp at hc; rw [hd] at hc; exact absurd hc (by simp)
            · intro p hp
              simp only at hp
              rw [hd, Option.some_inj] at hp
              subst hp
              exact ⟨h, by simp [processMesh, hd, hf], by simp [processMesh, hd, hf]⟩
      | none =>
        have htp : tp ∉ st.texCalls := by
          intro hc
          have := (hiff tp).mpr hc
          rw [hf] at this
          exact absurd this (by simp)
        refine ⟨?_, ?_, ?_⟩
        · rw [show (processMesh env scene (some m) st).texCalls
              = st.texCalls ++ [tp] by simp [processMesh, hd, hf]]
          simpa [List.nodup_append] using ⟨hnd, htp⟩
        · intro p
          rw [show (processMesh env scene (some m) st).texCalls
              = st.texCalls ++ [tp] by simp [processMesh, hd, hf],
            show (processMesh env scene (some m) st).loadedTextures
              = st.loadedTextures ++ [(tp, (readTexture env tp st.glNextTex).1)] by
              simp [processMesh, hd, hf]]
          by_cases hptp : p = tp
          · subst hptp
            simp [findTexture_append_single_self st.loadedTextures p _ hf]
          · rw [findTexture_append_single_ne st.loadedTextures p tp _
              (fun he => hptp he.symm)]
            simp [hiff p, hptp]
        · intro md hmd
          simp only [processMesh, hd, hf, List.mem_append, List.mem_singleton] at hmd
          rcases hmd with hold | hnew
          · obtain ⟨hn0, hs0⟩ := hmesh md hold
            constructor
            · intro hc; simpa [processMesh, hd, hf] using hn0 hc
            · intro p hp
              obtain ⟨hh, hfind, hml⟩ := hs0 p hp
              refine ⟨hh, ?_, hml⟩
              rw [show (processMesh env scene (some m) st).loadedTextures
                  = st.loadedTextures ++ [(tp, (readTexture env tp st.glNextTex).1)] by
                  simp [processMesh, hd, hf]]
              exact findTexture_append_of_some _ _ _ _ hfind
          · subst hnew
            constructor
            · intro hc; simp only at hc; rw [hd] at hc; exact absurd hc (by simp)
            · intro p hp
              simp only at hp
              rw [hd, Option.some_inj] at hp
              subst hp
              refine ⟨(readTexture env tp st.glNextTex).1, ?_,
                by simp [processMesh, hd, hf]⟩
              rw [show (processMesh env scene (some m) st).loadedTextures
                  = st.loadedTextures ++ [(tp, (readTexture env tp st.glNextTex).1)] by
                  simp [processMesh, hd, hf]]
              exact findTexture_append_single_self _ _ _ hf

/-- The mesh-reference loop preserves the dedup invariant. -/
theorem processMeshRefs_invariant (env : Env) (scene : AiScene)
    (refs : List Nat) (st : ModelState) (hinv : loadInvariant scene st) :
    loadInvariant scene (processMeshRefs env scene refs st) := by
  induction refs generalizing st with
  | nil => exact hinv
  | cons i rest ih =>
    exact ih _ (processMesh_invariant env scene _ st hinv)

mutual

/-- `processNode` preserves the dedup invariant. -/
theorem processNode_invariant (env : Env) (scene : AiScene) (n : AiNode)
    (st : ModelState) (hinv : loadInvariant scene st) :
    loadInvariant scene (processNode env scene n st) := by
  cases n with
  | node meshRefs children =>
    rw [processNode]
    exact processNodes_invariant env scene children _
      (processMeshRefs_invariant env scene meshRefs st hinv)

/-- `processNodes` preserves the dedup invariant. -/
theorem processNodes_invariant (env : Env) (scene : AiScene)
    (ns : List AiNode) (st : ModelState) (hinv : loadInvariant scene st) :
    loadInvariant scene (processNodes env scene ns st) := by
  cases ns with
  | nil => exact hinv
  | cons n rest =>
    rw [processNodes]
    exact processNodes_invariant env scene rest _
      (processNode_invariant env scene n st hinv)

end

/-- A whole load from a fresh model satisfies the dedup invariant. -/
theorem loadModel_invariant (env : Env) (scene : AiScene) :
    loadInvariant scene (loadModel env (some scene) initialState) := by
  rw [loadModel]
  by_cases h0 : scene.meshes.length = 0
  · simp only [h0, if_true]
    exact loadInvariant_initial scene
  · simp only [h0, if_false]
    exact processNode_invariant env scene scene.rootNode initialState
      (loadInvariant_initial scene)

/-- One call's state growth: the later state extends the earlier one, mesh
records and cache entries are appended (never removed or overwritten), and
every newly logged texture-loader call was for a path the earlier cache did
not hold. -/
def accumulates (st st2 : ModelState) : Prop :=
  ∃ ms ext cs,
    st2.meshes = st.meshes ++ ms ∧
    st2.loadedTextures = st.loadedTextures ++ ext ∧
    st2.texCalls = st.texCalls ++ cs ∧
    ∀ p ∈ cs, findTexture st.loadedTextures p = none

/-- State growth is reflexive. -/
theorem accumulates_refl (st : ModelState) : accumulates st st :=
  ⟨[], [], [], by simp, by simp, by simp, by simp⟩

/-- State growth composes. -/
theorem accumulates_trans (st st2 st3 : ModelState)
    (h12 : accumulates st st2) (h23 : accumulates st2 st3) :
    accumulates st st3 := by
  obtain ⟨ms1, ext1, cs1, hm1, he1, hc1, hf1⟩ := h12
  obtain ⟨ms2, ext2, cs2, hm2, he2, hc2, hf2⟩ := h23
  refine ⟨ms1 ++ ms2, ext1 ++ ext2, cs1 ++ cs2,
    by rw [hm2, hm1, List.append_assoc],
    by rw [he2, he1, List.append_assoc],
    by rw [hc2, hc1, List.append_assoc], ?_⟩
  intro p hp
  rcases List.mem_append.mp hp with hp1 | hp2
  · exact hf1 p hp1
  · have := hf2 p hp2
    rw [he1] at this
    exact findTexture_none_of_append _ _ _ this

/-- `processMesh` only grows the state. -/
theorem processMesh_accumulates (env : Env) (scene : AiScene)
    (mo : Option AiMesh) (st : ModelState) :
    accumulates st (processMesh env scene mo st) :=
  processMesh_mono env scene mo st

/-- The mesh-reference loop only grows the state. -/
theorem processMeshRefs_accumulates (env : Env) (scene : AiScene)
    (refs : List Nat) (st : ModelState) :
    accumulates st (processMeshRefs env scene refs st) := by
  induction refs generalizing st with
  | nil => exact accumulates_refl st
  | cons i rest ih =>
    exact accumulates_trans _ _ _
      (processMesh_accumulates env scene _ st) (ih _)

mutual

/-- `processNode` only grows the state. -/
theorem processNode_accumulates (env : Env) (scene : AiScene) (n : AiNode)
    (st : ModelState) : accumulates st (processNode env scene n st) := by
  cases n with
  | node meshRefs children =>
    rw [processNode]
    exact accumulates_trans _ _ _
      (processMeshRefs_accumulates env scene meshRefs st)
      (processNodes_accumulates env scene children _)

/-- `processNodes` only grows the state. -/
theorem processNodes_accumulates (env : Env) (scene : AiScene)
    (ns : List AiNode) (st : ModelState) :
    accumulates st (processNodes env scene ns st) := by
  cases ns with
  | nil => exact accumulates_refl st
  | cons n rest =>
    rw [processNodes]
    exact accumulates_trans _ _ _
      (processNode_accumulates env scene n st)
      (processNodes_accumulates env scene rest _)

end

/-- Running a concatenation runs the pieces in sequence. -/
theorem enabledAfter_append (a b : List GLCmd) (s : Finset Int) :
    enabledAfter (a ++ b) s = enabledAfter b (enabledAfter a s) := by
  rw [enabledAfter, enabledAfter, enabledAfter, List.foldl_append]

/-- The texcoord loop disables every location it touches: running it removes
exactly the looped-over locations from the enabled set. -/
theorem enabledAfter_texCoordCmds (locs : List Int) (s : Finset Int) :
    enabledAfter (texCoordCmds locs) s = s \ locs.toFinset := by
  induction locs generalizing s with
  | nil => simp [texCoordCmds, enabledAfter]
  | cons l rest ih =>
    have hc : texCoordCmds (l :: rest)
        = [GLCmd.enableVertexAttribArray l,
           GLCmd.vertexAttribPointer l 2 (BufferSrc.uv 0),
           GLCmd.disableVertexAttribArray l] ++ texCoordCmds rest := by
      simp [texCoordCmds]
    rw [hc, enabledAfter_append, ih]
    have hstep : enabledAfter [GLCmd.enableVertexAttribArray l,
        GLCmd.vertexAttribPointer l 2 (BufferSrc.uv 0),
        GLCmd.disableVertexAttribArray l] s = (insert l s).erase l := rfl
    rw [hstep]
    ext x
    simp only [Finset.mem_sdiff, Finset.mem_erase, Finset.mem_insert,
      List.toFinset_cons, List.mem_toFinset]
    tauto

/-- The texture loop touches no vertex-attribute enable state. -/
theorem enabledAfter_textureBindCmds (env : Env) (texs : List Nat)
    (s : Finset Int) : enabledAfter (textureBindCmds env texs) s = s := by
  suffices h : ∀ (l : List (Nat × Nat)) (s : Finset Int),
      enabledAfter (l.flatMap (fun p =>
        [GLCmd.activeTexture p.1, GLCmd.bindTexture p.2,
         GLCmd.uniform1i (env.u ("textureMap" ++ toString p.1)) p.1])) s = s by
    exact h texs.enum s
  intro l
  induction l with
  | nil => intro s; rfl
  | cons p rest ih =>
    intro s
    rw [List.flatMap_cons, enabledAfter_append]
    exact ih _

/-- Neither the texcoord loop nor any of its commands is a draw call. -/
theorem texCoordCmds_no_draw (locs : List Int) (c : GLCmd)
    (hc : c ∈ texCoordCmds locs) : isDrawCall c = false := by
  rw [texCoordCmds, List.mem_flatMap] at hc
  obtain ⟨l, _, hcl⟩ := hc
  simp only [List.mem_cons, List.not_mem_nil, or_false] at hcl
  rcases hcl with h | h | h <;> (subst h; rfl)

/-- No command of the texture loop is a draw call. -/
theorem textureBindCmds_no_draw (env : Env) (texs : List Nat) (c : GLCmd)
    (hc : c ∈ textureBindCmds env texs) : isDrawCall c = false := by
  rw [textureBindCmds, List.mem_flatMap] at hc
  obtain ⟨p, _, hcl⟩ := hc
  simp only [List.mem_cons, List.not_mem_nil, or_false] at hcl
  rcases hcl with h | h | h <;> (subst h; rfl)

/-- A recorded texcoord location's enable, UV-channel-0 bind and disable
appear contiguously, in that order, in the texcoord loop's commands. -/
theorem texCoordCmds_mem_split (locs : List Int) (l : Int)
    (hl : l ∈ locs) :
    ∃ pre post, texCoordCmds locs = pre ++
      [GLCmd.enableVertexAttribArray l,
       GLCmd.vertexAttribPointer l 2 (BufferSrc.uv 0),
       GLCmd.disableVertexAttribArray l] ++ post := by
  induction locs with
  | nil => exact absurd hl (List.not_mem_nil l)
  | cons a rest ih =>
    rcases List.mem_cons.mp hl with h | h
    · subst h
      exact ⟨[], rest.flatMap (fun x =>
        [GLCmd.enableVertexAttribArray x,
         GLCmd.vertexAttribPointer x 2 (BufferSrc.uv 0),
         GLCmd.disableVertexAttribArray x]), by simp [texCoordCmds]⟩
    · obtain ⟨pre, post, hsplit⟩ := ih h
      refine ⟨[GLCmd.enableVertexAttribArray a,
        GLCmd.vertexAttribPointer a 2 (BufferSrc.uv 0),
        GLCmd.disableVertexAttribArray a] ++ pre, post, ?_⟩
      rw [texCoordCmds] at *
      simp [hsplit]

/-- A concrete environment for evaluating the theorems: distinct locations
for the vertex, normal and texcoord attributes, and a decoder that fails on
"bad.png" and succeeds elsewhere. -/
def envW : Env :=
  { a := fun s => if s = "vertex" then 1 else if s = "normal" then 2 else 7
    u := fun _ => 0
    decode := fun s => if s = "bad.png" then none else some (4, 4) }

/-- A concrete two-face mesh with one UV channel, material 0. -/
def meshW : AiMesh := ⟨[⟨[0, 1, 2]⟩, ⟨[2, 1, 3]⟩], 1, 0⟩

/-- A concrete two-mesh scene whose meshes share one diffuse texture, with a
root node holding mesh 0 and one child holding mesh 1. -/
def sceneW : AiScene :=
  ⟨[some meshW, some meshW], [⟨some "tex.png"⟩],
   AiNode.node [0] [AiNode.node [1] []]⟩

/-- A concrete scene whose single mesh references the failing texture. -/
def sceneBad : AiScene :=
  ⟨[some meshW], [⟨some "bad.png"⟩], AiNode.node [0] []⟩

/-- Claim C1: for a valid imported scene with at least one mesh, the number
of stored `Mesh` entities after `loadModel` equals the sum of `mNumMeshes`
over all nodes visited by the traversal. -/
theorem loadModel_mesh_count_eq_visited_sum (env : Env) (scene : AiScene)
    (hvalid : nodeValidB scene scene.rootNode = true)
    (hnz : scene.meshes.length ≠ 0) :
    (loadModel env (some scene) initialState).meshes.length
      = nodeMeshSum scene.rootNode := by
  simp only [loadModel]
  rw [if_neg hnz]
  have hc := processNode_count env scene scene.rootNode initialState hvalid
  simpa [initialState] using hc

/-- Witness for C1 at the concrete two-mesh scene. -/
theorem loadModel_mesh_count_eq_visited_sum_witness :
    (loadModel envW (some sceneW) initialState).meshes.length
      = nodeMeshSum sceneW.rootNode :=
  loadModel_mesh_count_eq_visited_sum envW sceneW (by decide) (by decide)

/-- Claim C4: a null scene or a zero-mesh scene leaves the model unchanged
(so a fresh model stays empty), and drawing the empty model issues zero
draw calls. -/
theorem loadModel_failure_draw_noop (env : Env) (sceneo : Option AiScene)
    (h : sceneo = none ∨ ∃ s, sceneo = some s ∧ s.meshes.length = 0) :
    loadModel env sceneo initialState = initialState ∧
    (loadModel env sceneo initialState).meshes = [] ∧
    countDrawCalls (draw env (loadModel env sceneo initialState)) = 0 := by
  have hl : loadModel env sceneo initialState = initialState := by
    rcases h with h | ⟨s, hs, h0⟩
    · rw [h]; rfl
    · rw [hs]; simp only [loadModel]; rw [if_pos h0]
  refine ⟨hl, ?_, ?_⟩
  · rw [hl]; rfl
  · rw [hl]; rfl

/-- Witness for C4 at a null importer result. -/
theorem loadModel_failure_draw_noop_witness :
    loadModel envW none initialState = initialState ∧
    (loadModel envW none initialState).meshes = [] ∧
    countDrawCalls (draw envW (loadModel envW none initialState)) = 0 :=
  loadModel_failure_draw_noop envW none (Or.inl rfl)

/-- Claim C5: the stored flattened index sequence of every processed mesh is
the concatenation of its faces' index lists in face order, so its length is
the sum of the faces' index counts. -/
theorem processMesh_flattened_indices (env : Env) (scene : AiScene)
    (m : AiMesh) (st : ModelState) :
    ∃ md, (processMesh env scene (some m) st).meshes = st.meshes ++ [md] ∧
      md.indices = m.faces.flatMap AiFace.indices ∧
      md.indices.length = (m.faces.map (fun f => f.indices.length)).sum := by
  obtain ⟨tex, htex⟩ := processMesh_some_meshes env scene m st
  refine ⟨_, htex, flattenIndices_eq_flatMap m, ?_⟩
  have hl : (flattenIndices m).length
      = (m.faces.map (fun f => f.indices.length)).sum := by
    rw [flattenIndices_eq_flatMap m, List.length_flatMap]
    rfl
  exact hl

/-- Claim C7: a processed mesh with N UV channels stores exactly N texcoord
attribute locations, looked up by name "texCoord0" .. "texCoord(N-1)" in
channel order. -/
theorem processMesh_texcoord_locations (env : Env) (scene : AiScene)
    (m : AiMesh) (st : ModelState) :
    ∃ md, (processMesh env scene (some m) st).meshes = st.meshes ++ [md] ∧
      md.texCoordsAttributes.length = m.numUVChannels ∧
      md.texCoordsAttributes
        = (List.range m.numUVChannels).map
            (fun i => env.a ("texCoord" ++ toString i)) ∧
      ∀ i, i < m.numUVChannels →
        md.texCoordsAttributes[i]? = some (env.a ("texCoord" ++ toString i)) := by
  obtain ⟨tex, htex⟩ := processMesh_some_meshes env scene m st
  refine ⟨_, htex, by simp [texCoordAttrs], rfl, ?_⟩
  intro i hi
  show (texCoordAttrs env m)[i]? = _
  simp [texCoordAttrs, List.getElem?_map, List.getElem?_range hi]

/-- Claim C8: the traversal is a pre-order depth-first walk from the root:
the stored mesh records are exactly the scene's resolutions of the pre-order
reference listing (each node's own references before its children's, sibling
subtrees in the given order). -/
theorem loadModel_preorder_traversal (env : Env) (scene : AiScene)
    (hvalid : nodeValidB scene scene.rootNode = true)
    (hnz : scene.meshes.length ≠ 0) :
    (loadModel env (some scene) initialState).meshes.map
        (fun md => some md.meshRef)
      = (preorderRefs scene.rootNode).map (getMesh scene) := by
  simp only [loadModel]
  rw [if_neg hnz]
  have hs := processNode_seq env scene scene.rootNode initialState hvalid
  simpa [initialState] using hs

/-- Witness for C8 at the concrete two-mesh scene. -/
theorem loadModel_preorder_traversal_witness :
    (loadModel envW (some sceneW) initialState).meshes.map
        (fun md => some md.meshRef)
      = (preorderRefs sceneW.rootNode).map (getMesh sceneW) :=
  loadModel_preorder_traversal envW sceneW (by decide) (by decide)

/-- Claim C9: on a null mesh, `drawMesh` has already set the S and T wrap
modes to clamp-to-edge before the null check returns: the emitted commands
are exactly those two, the resulting global wrap state is clamp-to-edge on
both axes from any starting state, the usual overwrite to repeat never
occurs, and no draw call is issued. -/
theorem drawMesh_null_leaves_clamp (env : Env) (w : WrapState) :
    drawMesh env none
      = [GLCmd.texParamWrapS Wrap.clampToEdge,
         GLCmd.texParamWrapT Wrap.clampToEdge] ∧
    wrapAfter (drawMesh env none) w
      = { wrapS := Wrap.clampToEdge, wrapT := Wrap.clampToEdge } ∧
    GLCmd.texParamWrapS Wrap.repeatWrap ∉ drawMesh env none ∧
    GLCmd.texParamWrapT Wrap.repeatWrap ∉ drawMesh env none ∧
    countDrawCalls (drawMesh env none) = 0 := by
  have h0 : drawMesh env none
      = [GLCmd.texParamWrapS Wrap.clampToEdge,
         GLCmd.texParamWrapT Wrap.clampToEdge] := rfl
  refine ⟨h0, rfl, ?_, ?_, rfl⟩
  · rw [h0]; simp
  · rw [h0]; simp

/-- Claim C10: `loadModel` never clears earlier state: stored meshes, cache
entries and logged loader calls are only appended to, every cached path keeps
its handle (so it is reused, not reloaded), and every new loader call is for
a path the old cache lacked. -/
theorem loadModel_accumulates_state (env : Env) (sceneo : Option AiScene)
    (st : ModelState) :
    accumulates st (loadModel env sceneo st) ∧
    ∀ p h, findTexture st.loadedTextures p = some h →
      findTexture (loadModel env sceneo st).loadedTextures p = some h := by
  have hacc : accumulates st (loadModel env sceneo st) := by
    cases sceneo with
    | none => exact accumulates_refl st
    | some scene =>
      simp only [loadModel]
      by_cases h0 : scene.meshes.length = 0
      · rw [if_pos h0]; exact accumulates_refl st
      · rw [if_neg h0]; exact processNode_accumulates env scene scene.rootNode st
  refine ⟨hacc, ?_⟩
  intro p h hf
  obtain ⟨ms, ext, cs, hm, he, hc, hcs⟩ := hacc
  rw [he]
  exact findTexture_append_of_some _ _ _ _ hf

/-- Claim C2: in `drawMesh` on a real mesh, every recorded texcoord
attribute location is enabled, bound to UV channel 0's coordinate buffer
(2 floats per vertex) and immediately disabled, contiguously and before the
indexed draw; consequently it is not in the enabled-attribute set at the
moment the draw call executes, whatever the set was on entry (the
hypothesis states GL's guarantee that distinct active attributes occupy
distinct locations, so the texcoord location is not the normal-attribute
location, whose enable follows the texcoord loop). -/
theorem drawMesh_texcoord_enable_disable (env : Env) (md : Mesh)
    (s : Finset Int) (l : Int) (hl : l ∈ md.texCoordsAttributes)
    (hn : l ≠ env.a "normal") :
    (∃ pre post, drawMesh env (some md)
        = pre ++ [GLCmd.enableVertexAttribArray l,
                  GLCmd.vertexAttribPointer l 2 (BufferSrc.uv 0),
                  GLCmd.disableVertexAttribArray l] ++ post) ∧
    ∃ pre post, drawMesh env (some md)
        = pre ++ GLCmd.drawElements md.indices.length :: post ∧
      (∀ c ∈ pre, isDrawCall c = false) ∧
      l ∉ enabledAfter pre s := by
  constructor
  · obtain ⟨pre0, post0, hsplit⟩ :=
      texCoordCmds_mem_split md.texCoordsAttributes l hl
    refine ⟨[GLCmd.texParamWrapS Wrap.clampToEdge,
      GLCmd.texParamWrapT Wrap.clampToEdge,
      GLCmd.texParamWrapS Wrap.repeatWrap,
      GLCmd.texParamWrapT Wrap.repeatWrap,
      GLCmd.uniformMatrix4fv (env.u "M"),
      GLCmd.enableVertexAttribArray (env.a "vertex"),
      GLCmd.vertexAttribPointer (env.a "vertex") 3 BufferSrc.positions]
        ++ pre0,
      post0 ++ textureBindCmds env md.meshTextures
        ++ [GLCmd.enableVertexAttribArray (env.a "normal"),
            GLCmd.vertexAttribPointer (env.a "normal") 3 BufferSrc.normals,
            GLCmd.drawElements md.indices.length,
            GLCmd.disableVertexAttribArray (env.a "vertex"),
            GLCmd.disableVertexAttribArray (env.a "normal")], ?_⟩
    simp [drawMesh, hsplit]
  · refine ⟨[GLCmd.texParamWrapS Wrap.clampToEdge,
      GLCmd.texParamWrapT Wrap.clampToEdge,
      GLCmd.texParamWrapS Wrap.repeatWrap,
      GLCmd.texParamWrapT Wrap.repeatWrap,
      GLCmd.uniformMatrix4fv (env.u "M"),
      GLCmd.enableVertexAttribArray (env.a "vertex"),
      GLCmd.vertexAttribPointer (env.a "vertex") 3 BufferSrc.positions]
        ++ (texCoordCmds md.texCoordsAttributes
          ++ (textureBindCmds env md.meshTextures
            ++ [GLCmd.enableVertexAttribArray (env.a "normal"),
                GLCmd.vertexAttribPointer (env.a "normal") 3 BufferSrc.normals])),
      [GLCmd.disableVertexAttribArray (env.a "vertex"),
       GLCmd.disableVertexAttribArray (env.a "normal")], ?_, ?_, ?_⟩
    · simp [drawMesh]
    · intro c hc
      rcases List.mem_append.mp hc with hc | hc
      · simp only [List.mem_cons, List.not_mem_nil, or_false] at hc
        rcases hc with rfl | rfl | rfl | rfl | rfl | rfl | rfl <;> rfl
      rcases List.mem_append.mp hc with hc | hc
      · exact texCoordCmds_no_draw md.texCoordsAttributes c hc
      rcases List.mem_append.mp hc with hc | hc
      · exact textureBindCmds_no_draw env md.meshTextures c hc
      · simp only [List.mem_cons, List.not_mem_nil, or_false] at hc
        rcases hc with rfl | rfl <;> rfl
    · rw [enabledAfter_append, enabledAfter_append, enabledAfter_append]
      have h7 : enabledAfter [GLCmd.texParamWrapS Wrap.clampToEdge,
          GLCmd.texParamWrapT Wrap.clampToEdge,
          GLCmd.texParamWrapS Wrap.repeatWrap,
          GLCmd.texParamWrapT Wrap.repeatWrap,
          GLCmd.uniformMatrix4fv (env.u "M"),
          GLCmd.enableVertexAttribArray (env.a "vertex"),
          GLCmd.vertexAttribPointer (env.a "vertex") 3 BufferSrc.positions] s
          = insert (env.a "vertex") s := rfl
      rw [h7, enabledAfter_texCoordCmds, enabledAfter_textureBindCmds]
      have h2 : ∀ t : Finset Int,
          enabledAfter [GLCmd.enableVertexAttribArray (env.a "normal"),
            GLCmd.vertexAttribPointer (env.a "normal") 3 BufferSrc.normals] t
          = insert (env.a "normal") t := fun t => rfl
      rw [h2]
      intro hmem
      rcases Finset.mem_insert.mp hmem with h | h
      · exact hn h
      · exact absurd (Finset.mem_sdiff.mp h).2
          (by simp only [List.mem_toFinset, not_not]; exact hl)

/-- Witness for C2 at a concrete mesh with one recorded texcoord location. -/
theorem drawMesh_texcoord_enable_disable_witness :
    (∃ pre post, drawMesh envW (some ⟨meshW, [0, 1, 2, 2, 1, 3], [7], [1]⟩)
        = pre ++ [GLCmd.enableVertexAttribArray 7,
                  GLCmd.vertexAttribPointer 7 2 (BufferSrc.uv 0),
                  GLCmd.disableVertexAttribArray 7] ++ post) ∧
    ∃ pre post, drawMesh envW (some ⟨meshW, [0, 1, 2, 2, 1, 3], [7], [1]⟩)
        = pre ++ GLCmd.drawElements
            (⟨meshW, [0, 1, 2, 2, 1, 3], [7], [1]⟩ : Mesh).indices.length :: post ∧
      (∀ c ∈ pre, isDrawCall c = false) ∧
      (7 : Int) ∉ enabledAfter pre ∅ :=
  drawMesh_texcoord_enable_disable envW ⟨meshW, [0, 1, 2, 2, 1, 3], [7], [1]⟩ ∅ 7
    (by decide) (by decide)

/-- Claim C3: any two meshes stored by one `loadModel` call whose materials
reference the same diffuse texture path carry the same stored texture
handle, and the texture loader was invoked exactly once for that path. -/
theorem loadModel_texture_dedup (env : Env) (scene : AiScene) (p : String)
    (md1 md2 : Mesh)
    (h1 : md1 ∈ (loadModel env (some scene) initialState).meshes)
    (h2 : md2 ∈ (loadModel env (some scene) initialState).meshes)
    (hp1 : materialDiffuse scene md1.meshRef.materialIndex = some p)
    (hp2 : materialDiffuse scene md2.meshRef.materialIndex = some p) :
    md2.meshTextures = md1.meshTextures ∧
    (loadModel env (some scene) initialState).texCalls.count p = 1 := by
  obtain ⟨hnd, hiff, hmesh⟩ := loadModel_invariant env scene
  obtain ⟨ha, hfind1, hml1⟩ := (hmesh md1 h1).2 p hp1
  obtain ⟨hb, hfind2, hml2⟩ := (hmesh md2 h2).2 p hp2
  rw [hfind1] at hfind2
  have hab : hb = ha := (Option.some_inj.mp hfind2).symm
  subst hab
  refine ⟨by rw [hml1, hml2], ?_⟩
  have hmem : p ∈ (loadModel env (some scene) initialState).texCalls :=
    (hiff p).mp (by rw [hfind1]; rfl)
  exact List.count_eq_one_of_mem hnd hmem

/-- Witness for C3: both meshes of the concrete scene share "tex.png"; the
loader records the same stored mesh for both and one loader call. -/
theorem loadModel_texture_dedup_witness :
    (⟨meshW, [0, 1, 2, 2, 1, 3], [7], [1]⟩ : Mesh).meshTextures
      = (⟨meshW, [0, 1, 2, 2, 1, 3], [7], [1]⟩ : Mesh).meshTextures ∧
    (loadModel envW (some sceneW) initialState).texCalls.count "tex.png" = 1 :=
  loadModel_texture_dedup envW sceneW "tex.png"
    ⟨meshW, [0, 1, 2, 2, 1, 3], [7], [1]⟩ ⟨meshW, [0, 1, 2, 2, 1, 3], [7], [1]⟩
    (by decide) (by decide) (by decide) (by decide)

/-- Claim C6: when decoding fails for a referenced path, `readTexture`
returns the sentinel handle 0, the mesh's stored handle list is `[0]`, and
the load goes on: any remaining (valid) nodes still contribute all their
meshes afterwards. -/
theorem readTexture_failure_continues (env : Env) (scene : AiScene)
    (m : AiMesh) (st : ModelState) (p : String) (ns : List AiNode)
    (hp : materialDiffuse scene m.materialIndex = some p)
    (hdec : env.decode p = none)
    (hc : findTexture st.loadedTextures p = none)
    (hns : nodesValidB scene ns = true) :
    readTexture env p st.glNextTex = (0, st.glNextTex) ∧
    (∃ md, (processMesh env scene (some m) st).meshes = st.meshes ++ [md] ∧
      md.meshTextures = [0]) ∧
    (processNodes env scene ns
        (processMesh env scene (some m) st)).meshes.length
      = st.meshes.length + 1 + nodesMeshSum ns := by
  have hrt : readTexture env p st.glNextTex = (0, st.glNextTex) := by
    simp only [readTexture, hdec]
  refine ⟨hrt, ?_, ?_⟩
  · refine ⟨⟨m, flattenIndices m, texCoordAttrs env m, [0]⟩, ?_, rfl⟩
    simp [processMesh, hp, hc, hrt]
  · rw [processNodes_count env scene ns _ hns]
    obtain ⟨tex, htex⟩ := processMesh_some_meshes env scene m st
    rw [htex, List.length_append]
    simp

/-- Witness for C6: the concrete scene whose one material's texture fails
to decode, with one further valid node still to process. -/
theorem readTexture_failure_continues_witness :
    readTexture envW "bad.png" initialState.glNextTex
      = (0, initialState.glNextTex) ∧
    (∃ md, (processMesh envW sceneBad (some meshW) initialState).meshes
        = initialState.meshes ++ [md] ∧ md.meshTextures = [0]) ∧
    (processNodes envW sceneBad [AiNode.node [0] []]
        (processMesh envW sceneBad (some meshW) initialState)).meshes.length
      = initialState.meshes.length + 1 + nodesMeshSum [AiNode.node [0] []] :=
  readTexture_failure_continues envW sceneBad meshW initialState "bad.png"
    [AiNode.node [0] []] (by decide) (by decide) (by decide) (by decide)
